import Mathlib

/-!
Verification of `tvm/runtime/registry.h`: the global function registry and
its signature-adaptation layer (`set_body_typed`, `set_body_simple`,
`set_body_method`, `set_body_node_method`), together with the named-function
table operations `Register`, `Remove`, `Get`, `ListNames`.

The adapter lambda shapes are embedded directly from the header source.
The bodies of `Register` / `Remove` / `Get` / `ListNames` (registry.cc) and
the argument unpacking of `TypedPackedFunc` (packed_func.h) are not part of
the provided sources, so those parts are modelled from the specification
(marked `Modelled from the spec:` below).
-/

set_option autoImplicit false

namespace TVM

/-- Modelled from the spec: the tagged `ErasedValue` carried across the
type-erased call boundary (packed_func.h is not in the sources).  It can
hold at least integers, strings, opaque handles; `vnode` carries an owner
value passed by value (shape 2 of the adapter), `vhandle` carries the
lightweight handle of the handle-to-payload indirection (shape 4). -/
inductive ErasedValue (Node : Type) where
  | vint (n : Int)
  | vstr (s : String)
  | vnode (t : Node)
  | vhandle (i : Nat)
  | vnull
  deriving DecidableEq, Repr

/-- Invocation-time failures of the adaptation layer, per §7 of the spec:
they are recoverable results, never process aborts. -/
inductive CallError where
  | ArityMismatch
  | TypeMismatch
  deriving DecidableEq, Repr

/-- The heap of payload (`Node`) objects that handles (`NodeRef`) point
into.  A handle is an index; dereferencing (`ref.operator->()` in the
source) reads the payload at that index. -/
def Heap (Node : Type) : Type := Nat → Node

/-- Writing back a mutated payload at index `i` (the effect of calling a
mutating method through a `Node*` obtained from the handle). -/
def Heap.write {Node : Type} (h : Heap Node) (i : Nat) (t : Node) : Heap Node :=
  fun j => if j = i then t else h j

/-- The uniform type-erased calling convention (`PackedFunc`): a list of
erased arguments to an erased result, with the payload heap threaded
explicitly so that mutations performed through handles are observable. -/
def PackedFunc (Node : Type) : Type :=
  Heap Node → List (ErasedValue Node) →
    Except CallError (Heap Node × ErasedValue Node)

/-- Modelled from the spec: conversion of an erased argument to a native
`int` parameter (packed_func.h conversions are not in the sources); an
unrepresentable conversion reports failure rather than crashing. -/
def toIntArg {Node : Type} : ErasedValue Node → Option Int
  | .vint n => some n
  | _ => none

/-- Modelled from the spec: conversion of an erased argument to the native
owner type `Node` passed by value (shape 2). -/
def toNodeArg {Node : Type} : ErasedValue Node → Option Node
  | .vnode t => some t
  | _ => none

/-- Modelled from the spec: conversion of an erased argument to the
lightweight handle (`NodeRef`) of shape 4; the handle itself is just the
index it wraps. -/
def toHandleArg {Node : Type} : ErasedValue Node → Option Nat
  | .vhandle i => some i
  | _ => none

/-- Embeds `Registry::set_body_simple` / `set_body_typed` for a free
function `int f(int, int)` (the `multiply` example of the header).  The
unpacking discipline is modelled from the spec (packed_func.h is not in
the sources): check arity first, then convert each argument in position
order, then invoke the native function and convert the native result
back.  A free function touches no payload, so the heap passes through. -/
def set_body_simple2 {Node : Type} (f : Int → Int → Int) : PackedFunc Node :=
  fun heap args =>
    match args with
    | [a, b] =>
      match toIntArg a, toIntArg b with
      | some x, some y => .ok (heap, .vint (f x y))
      | _, _ => .error .TypeMismatch
    | _ => .error .ArityMismatch

/-- A native method `R (T::*f)(Args...)` on an owner taken by value, as a
state-passing function: it receives the owner, returns the (possibly
mutated) owner together with the native result. -/
def Method (Node : Type) : Type := Node → Int → Node × Int

/-- Embeds `Registry::set_body_method` (non-const overload, header lines
93–99): the produced lambda takes `T target` BY VALUE, calls
`(target.*f)(params...)` on that local copy and returns the result; the
mutated copy is discarded, so the heap and the caller's owner are
untouched.  Arity/type checking is modelled from the spec as above. -/
def set_body_method {Node : Type} (f : Method Node) : PackedFunc Node :=
  fun heap args =>
    match args with
    | [t, x] =>
      match toNodeArg t, toIntArg x with
      | some target, some xv =>
        -- call method pointer on the by-value copy; keep only the result
        .ok (heap, .vint (f target xv).2)
      | _, _ => .error .TypeMismatch
    | _ => .error .ArityMismatch

/-- Embeds `Registry::set_body_node_method` (header lines 132–139): the
produced lambda takes the `NodeRef ref`, obtains the backing payload with
`Node* target = ref.operator->()`, and calls the method pointer on that
payload.  Because the call goes through the pointer, the mutated payload
is written back to the heap and remains observable through the handle. -/
def set_body_node_method {Node : Type} (f : Method Node) : PackedFunc Node :=
  fun heap args =>
    match args with
    | [h, x] =>
      match toHandleArg h, toIntArg x with
      | some i, some xv =>
        -- Node* target = ref.operator->(); call method pointer
        let r := f (heap i) xv
        .ok (heap.write i r.1, .vint r.2)
      | _, _ => .error .TypeMismatch
    | _ => .error .ArityMismatch

/-! ## The named-function table

`Register` / `Remove` / `Get` / `ListNames` are declared in the header but
implemented in registry.cc, which is not in the sources; the table below is
modelled from the spec (§3, §4.1): a mapping name → Entry, where an Entry
is a name plus an optional installed body.  It is kept polymorphic in the
body type `β` (instantiated with `PackedFunc` by clients). -/

/-- Modelled from the spec: the table state, a finite map name → optional
body, represented as an association list with unique keys maintained by
the operations themselves. -/
def RegistryState (β : Type) : Type := List (String × Option β)

/-- Failure of `Register` on an existing name without `override`. -/
inductive RegError where
  | DuplicateRegistration
  deriving DecidableEq, Repr

/-- Look up the entry slot for `name`: `none` when no entry exists,
`some b` when an entry exists whose (optional) body is `b`. -/
def getEntry {β : Type} : RegistryState β → String → Option (Option β)
  | [], _ => none
  | (m, b) :: rest, name => if m = name then some b else getEntry rest name

/-- Modelled from the spec: `Register(name, override)`.  Creates the entry
(with no body yet) if absent; if present and `override` is false, signals
`DuplicateRegistration`; if present and `override` is true, the existing
entry is reused so that the eventual new body replaces the old one. -/
def Register {β : Type} (st : RegistryState β) (name : String)
    (override : Bool) : Except RegError (RegistryState β) :=
  match getEntry st name with
  | some _ => if override then .ok st else .error .DuplicateRegistration
  | none => .ok ((name, none) :: st)

/-- Modelled from the spec: `RegistryHandle.SetBody` — installs `body` as
the named entry's body, replacing any previous body (last write wins). -/
def setBody {β : Type} (st : RegistryState β) (name : String) (body : β) :
    RegistryState β :=
  st.map (fun p => if p.1 = name then (p.1, some body) else p)

/-- Modelled from the spec: `Get(name)` — returns the entry's body slot
(a pointer to the installed callable), or not-found (`none`, the null
pointer) when no entry exists.  Never raises. -/
def Get {β : Type} (st : RegistryState β) (name : String) :
    Option (Option β) :=
  getEntry st name

/-- Modelled from the spec: `Remove(name)` — erases the entry if present
and returns whether it existed, together with the new table state. -/
def Remove {β : Type} (st : RegistryState β) (name : String) :
    Bool × RegistryState β :=
  match st with
  | [] => (false, [])
  | (m, b) :: rest =>
    if m = name then (true, rest)
    else
      let r := Remove rest name
      (r.1, (m, b) :: r.2)

/-- Modelled from the spec: `ListNames()` — a snapshot copy of all
currently registered names. -/
def ListNames {β : Type} (st : RegistryState β) : List String :=
  st.map Prod.fst

/-- The empty table (lazily materialized on first use). -/
def emptyRegistry (β : Type) : RegistryState β := []

/-! ## Theorems for the adaptation layer -/

/-- Claim C1: for every payload method adapted via `set_body_node_method`
and every handle (index `i`) referring to payload `heap i`, invoking the
adapted callable with erased arguments `(vhandle i, vint x)` dereferences
the handle, invokes the method on the payload with `x`, returns the
method's result as the erased return value, and writes the mutated payload
back, so the mutation is observable through the handle after the call
(reference semantics, not a copy). -/
theorem node_method_reference_semantics :
    ∀ (Node : Type) (f : Method Node) (heap : Heap Node) (i : Nat) (x : Int),
      set_body_node_method f heap [.vhandle i, .vint x]
        = .ok (heap.write i (f (heap i) x).1, .vint (f (heap i) x).2)
      ∧ (heap.write i (f (heap i) x).1) i = (f (heap i) x).1 := by
  intro Node f heap i x
  exact ⟨rfl, by simp [Heap.write]⟩

/-- Claim C2: a native free function of type `(int, int) -> int` adapted
via `set_body_simple` / `set_body_typed` converts each erased argument to
the native parameter type, invokes the native function on them, and
converts the native result back to an erased value; in particular
invoking the adapter of addition with erased `(3, 4)` returns erased `7`. -/
theorem simple_adapter_correct :
    (∀ (Node : Type) (f : Int → Int → Int) (heap : Heap Node) (x y : Int),
      set_body_simple2 f heap [.vint x, .vint y] = .ok (heap, .vint (f x y)))
    ∧ @set_body_simple2 Unit (fun a b => a + b) (fun _ => ())
        [.vint 3, .vint 4] = .ok ((fun _ => ()), .vint 7) := by
  refine ⟨fun Node f heap x y => rfl, rfl⟩

/-- Claim C3: for every adapted callable (any of the three adapter
shapes), invoking it with an erased argument count different from the
native arity produces the recoverable result `ArityMismatch` — the result
does not depend on the native function, so no native call is attempted —
and invoking it with an argument that cannot be converted to its native
parameter type produces the recoverable result `TypeMismatch`; both are
ordinary return values of the type-erased call path (an `Except` value),
never a process abort. -/
theorem adapter_error_handling :
    (∀ (Node : Type) (f : Int → Int → Int) (heap : Heap Node)
        (args : List (ErasedValue Node)), args.length ≠ 2 →
      set_body_simple2 f heap args = .error .ArityMismatch)
    ∧ (∀ (Node : Type) (f : Method Node) (heap : Heap Node)
        (args : List (ErasedValue Node)), args.length ≠ 2 →
      set_body_method f heap args = .error .ArityMismatch)
    ∧ (∀ (Node : Type) (f : Method Node) (heap : Heap Node)
        (args : List (ErasedValue Node)), args.length ≠ 2 →
      set_body_node_method f heap args = .error .ArityMismatch)
    ∧ (∀ (Node : Type) (f : Int → Int → Int) (heap : Heap Node)
        (a b : ErasedValue Node), toIntArg a = none ∨ toIntArg b = none →
      set_body_simple2 f heap [a, b] = .error .TypeMismatch)
    ∧ (∀ (Node : Type) (f : Method Node) (heap : Heap Node)
        (a b : ErasedValue Node), toNodeArg a = none ∨ toIntArg b = none →
      set_body_method f heap [a, b] = .error .TypeMismatch)
    ∧ (∀ (Node : Type) (f : Method Node) (heap : Heap Node)
        (a b : ErasedValue Node), toHandleArg a = none ∨ toIntArg b = none →
      set_body_node_method f heap [a, b] = .error .TypeMismatch) := by
  refine ⟨?_, ?_, ?_, ?_, ?_, ?_⟩
  · intro Node f heap args h
    match args with
    | [] => rfl
    | [_] => rfl
    | [_, _] => simp at h
    | _ :: _ :: _ :: _ => rfl
  · intro Node f heap args h
    match args with
    | [] => rfl
    | [_] => rfl
    | [_, _] => simp at h
    | _ :: _ :: _ :: _ => rfl
  · intro Node f heap args h
    match args with
    | [] => rfl
    | [_] => rfl
    | [_, _] => simp at h
    | _ :: _ :: _ :: _ => rfl
  · intro Node f heap a b h
    show (match toIntArg a, toIntArg b with
      | some x, some y => Except.ok (heap, ErasedValue.vint (f x y))
      | _, _ => Except.error CallError.TypeMismatch) = .error .TypeMismatch
    rcases h with h | h <;> rw [h] <;> rcases toIntArg a <;> rcases toIntArg b <;> rfl
  · intro Node f heap a b h
    show (match toNodeArg a, toIntArg b with
      | some target, some xv => Except.ok (heap, ErasedValue.vint (f target xv).2)
      | _, _ => Except.error CallError.TypeMismatch) = .error .TypeMismatch
    rcases h with h | h <;> rw [h] <;> rcases toNodeArg a <;> rcases toIntArg b <;> rfl
  · intro Node f heap a b h
    show (match toHandleArg a, toIntArg b with
      | some i, some xv =>
        Except.ok (heap.write i (f (heap i) xv).1, ErasedValue.vint (f (heap i) xv).2)
      | _, _ => Except.error CallError.TypeMismatch) = .error .TypeMismatch
    rcases h with h | h <;> rw [h] <;> rcases toHandleArg a <;> rcases toIntArg b <;> rfl

/-- Witness for C3: the addition adapter called with one argument fails
with `ArityMismatch`, and called with `("x", 4)` fails with
`TypeMismatch`, both as concrete evaluations. -/
theorem adapter_error_handling_witness :
    @set_body_simple2 Unit (fun a b => a + b) (fun _ => ())
      [.vint 3] = .error .ArityMismatch
    ∧ @set_body_simple2 Unit (fun a b => a + b) (fun _ => ())
      [.vstr "x", .vint 4] = .error .TypeMismatch :=
  ⟨adapter_error_handling.1 Unit (fun a b => a + b) (fun _ => ())
      [.vint 3] (by simp),
   adapter_error_handling.2.2.2.1 Unit (fun a b => a + b) (fun _ => ())
      (.vstr "x") (.vint 4) (Or.inl rfl)⟩

/-- Claim C9: the non-const `set_body_method` overload receives the owner
(erased argument 0) as a by-value copy, so the adapted call returns the
method's result computed on that copy while the heap — and hence every
owner value the caller can observe — is left completely unchanged: the
mutated copy `(f t x).1` is discarded. -/
theorem method_by_value_copy :
    ∀ (Node : Type) (f : Method Node) (heap : Heap Node) (t : Node) (x : Int),
      set_body_method f heap [.vnode t, .vint x] = .ok (heap, .vint (f t x).2) := by
  intro Node f heap t x
  rfl

/-! ## Helper lemmas for the table -/

/-- Unfolding `getEntry` on a cons cell. -/
theorem getEntry_cons {β : Type} (m : String) (b : Option β)
    (rest : RegistryState β) (name : String) :
    getEntry ((m, b) :: rest) name
      = if m = name then some b else getEntry rest name := rfl

/-- An entry slot exists exactly for the names in `ListNames`. -/
theorem getEntry_isSome_iff_mem {β : Type} (st : RegistryState β)
    (name : String) : (getEntry st name).isSome ↔ name ∈ ListNames st := by
  induction st with
  | nil => simp [getEntry, ListNames]
  | cons p rest ih =>
    obtain ⟨m, b⟩ := p
    by_cases hm : m = name
    · subst hm
      simp [getEntry_cons, ListNames]
    · simp [getEntry_cons, hm, ListNames] at ih ⊢
      rw [ih]
      constructor
      · exact Or.inr
      · rintro (h | h)
        · exact absurd h.symm hm
        · exact h

/-- Installing a body under `name` turns an existing entry slot for
`name` into that body. -/
theorem getEntry_setBody_self {β : Type} (st : RegistryState β)
    (name : String) (b : β) (h : (getEntry st name).isSome) :
    getEntry (setBody st name b) name = some (some b) := by
  induction st with
  | nil => simp [getEntry] at h
  | cons p rest ih =>
    obtain ⟨m, bo⟩ := p
    by_cases hm : m = name
    · subst hm
      simp [setBody, getEntry_cons]
    · simp [setBody, getEntry_cons, hm] at h ⊢
      exact ih h

/-- Installing a body under `n1` does not touch the slot of any other
name `n2`. -/
theorem getEntry_setBody_other {β : Type} (st : RegistryState β)
    (n1 n2 : String) (b : β) (h : n1 ≠ n2) :
    getEntry (setBody st n1 b) n2 = getEntry st n2 := by
  induction st with
  | nil => rfl
  | cons p rest ih =>
    obtain ⟨m, bo⟩ := p
    show getEntry ((if m = n1 then (m, some b) else (m, bo)) :: setBody rest n1 b) n2
      = getEntry ((m, bo) :: rest) n2
    by_cases hm : m = n1
    · subst hm
      rw [if_pos rfl, getEntry_cons, getEntry_cons, if_neg h, if_neg h]
      exact ih
    · rw [if_neg hm, getEntry_cons, getEntry_cons]
      by_cases hm2 : m = n2
      · rw [if_pos hm2, if_pos hm2]
      · rw [if_neg hm2, if_neg hm2]
        exact ih

/-- The boolean returned by `Remove` is exactly whether the entry
existed. -/
theorem Remove_fst_eq_isSome {β : Type} (st : RegistryState β)
    (name : String) : (Remove st name).1 = (getEntry st name).isSome := by
  induction st with
  | nil => rfl
  | cons p rest ih =>
    obtain ⟨m, b⟩ := p
    by_cases hm : m = name
    · simp [Remove, getEntry_cons, hm]
    · simp [Remove, getEntry_cons, hm, ih]

/-- A successful `Register` with `override = false` means the name was
absent and the new state is the old one extended with a fresh bodyless
entry. -/
theorem Register_false_ok {β : Type} (st st1 : RegistryState β)
    (name : String) (h : Register st name false = .ok st1) :
    getEntry st name = none ∧ st1 = (name, none) :: st := by
  rcases hg : getEntry st name with _ | b
  · simp [Register, hg] at h
    exact ⟨rfl, h.symm⟩
  · simp [Register, hg] at h

/-! ## Theorems for the table operations -/

/-- Claim C4: calling `Register` a second time for an already-registered
name with `override = false` signals `DuplicateRegistration`; calling it
with `override = true` reuses the existing entry (state unchanged), so
that installing the eventual new body replaces the old one and a
subsequent `Get` observes only the new body. -/
theorem register_duplicate_and_override :
    ∀ (β : Type) (st : RegistryState β) (name : String) (b : β),
      (getEntry st name).isSome →
        Register st name false = .error .DuplicateRegistration
        ∧ Register st name true = .ok st
        ∧ Get (setBody st name b) name = some (some b) := by
  intro β st name b h
  rcases hg : getEntry st name with _ | bo
  · rw [hg] at h
    simp at h
  · exact ⟨by simp [Register, hg], by simp [Register, hg],
      getEntry_setBody_self st name b h⟩

/-- Witness for C4: on a table holding an entry for "f" with body `1`,
re-registering without override fails, registering with override reuses
the entry, and after installing body `7` the lookup observes `7`. -/
theorem register_duplicate_and_override_witness :
    Register [("f", some 1)] "f" false
        = (.error .DuplicateRegistration : Except RegError (RegistryState Nat))
    ∧ Register [("f", some 1)] "f" true = .ok [("f", some 1)]
    ∧ Get (setBody [("f", (some 1 : Option Nat))] "f" 7) "f" = some (some 7) :=
  register_duplicate_and_override Nat [("f", some 1)] "f" 7 (by decide)

/-- Claim C5: `Get` on any name with no current entry returns the
not-found result `none` (and, being a total function, never raises);
`Get` on a registered name returns the currently installed callable. -/
theorem get_not_found_and_installed :
    ∀ (β : Type) (st : RegistryState β) (name : String) (b : β),
      (name ∉ ListNames st → Get st name = none)
      ∧ ((getEntry st name).isSome →
          Get (setBody st name b) name = some (some b)) := by
  intro β st name b
  constructor
  · intro h
    rcases hg : getEntry st name with _ | bo
    · exact hg
    · exact absurd ((getEntry_isSome_iff_mem st name).1 (by rw [hg]; rfl)) h
  · exact getEntry_setBody_self st name b

/-- Witness for C5: a never-registered name is not found in the empty
table, and a registered name with installed body `3` is observed. -/
theorem get_not_found_and_installed_witness :
    Get (emptyRegistry Nat) "g" = none
    ∧ Get (setBody [("f", (some 1 : Option Nat))] "f" 3) "f" = some (some 3) :=
  ⟨(get_not_found_and_installed Nat (emptyRegistry Nat) "g" 3).1 (by decide),
   (get_not_found_and_installed Nat [("f", some 1)] "f" 3).2 (by decide)⟩

/-- Claim C6: `Remove` erases the entry if present and returns true
exactly when the entry existed; after `Register("f", false)` succeeds and
`Remove("f")` runs, `Get("f")` is not-found and a second `Remove("f")`
returns false. -/
theorem remove_spec :
    ∀ (β : Type) (st st1 : RegistryState β) (name : String),
      ((Remove st name).1 = (getEntry st name).isSome)
      ∧ (Register st name false = .ok st1 →
          (Remove st1 name).1 = true
          ∧ Get (Remove st1 name).2 name = none
          ∧ (Remove (Remove st1 name).2 name).1 = false) := by
  intro β st st1 name
  refine ⟨Remove_fst_eq_isSome st name, fun hreg => ?_⟩
  obtain ⟨habs, hst1⟩ := Register_false_ok st st1 name hreg
  subst hst1
  refine ⟨by simp [Remove], ?_, ?_⟩
  · simpa [Remove, Get] using habs
  · simp [Remove, Remove_fst_eq_isSome, habs]

/-- Witness for C6: starting from the empty table, register "f", remove
it; the removal reports true, the lookup is not-found, and a second
removal reports false. -/
theorem remove_spec_witness :
    (Remove [("f", (none : Option Nat))] "f").1 = true
    ∧ Get (Remove [("f", (none : Option Nat))] "f").2 "f" = none
    ∧ (Remove (Remove [("f", (none : Option Nat))] "f").2 "f").1 = false :=
  (remove_spec Nat (emptyRegistry Nat) [("f", none)] "f").2 rfl

/-- Claim C7: `ListNames` returns a snapshot containing exactly the names
currently registered; after registering "a", "b", "c" from the empty
table and then removing "b", the result of `ListNames`, as a set, equals
`{"a", "c"}` (order not contractual). -/
theorem listnames_snapshot :
    ∀ (β : Type) (s1 s2 s3 : RegistryState β),
      Register (emptyRegistry β) "a" false = .ok s1 →
      Register s1 "b" false = .ok s2 →
      Register s2 "c" false = .ok s3 →
      (ListNames (Remove s3 "b").2).toFinset = ({"a", "c"} : Finset String) := by
  intro β s1 s2 s3 h1 h2 h3
  obtain ⟨-, e1⟩ := Register_false_ok _ _ _ h1
  subst e1
  obtain ⟨-, e2⟩ := Register_false_ok _ _ _ h2
  subst e2
  obtain ⟨-, e3⟩ := Register_false_ok _ _ _ h3
  subst e3
  show (ListNames (Remove
      [("c", none), ("b", none), ("a", none)] "b").2).toFinset = {"a", "c"}
  simp [Remove, ListNames]
  exact Finset.pair_comm "c" "a"

/-- Witness for C7: the concrete three-registration, one-removal run. -/
theorem listnames_snapshot_witness :
    (ListNames (Remove [("c", (none : Option Nat)), ("b", none), ("a", none)]
      "b").2).toFinset = ({"a", "c"} : Finset String) :=
  listnames_snapshot Nat [("a", none)] [("b", none), ("a", none)]
    [("c", none), ("b", none), ("a", none)] rfl rfl rfl

/-- Claim C8: for distinct names `n1 ≠ n2` and every table state,
registering `n1` (with either override flag), and likewise installing a
body for `n1`, leaves the result of `Get n2` unchanged. -/
theorem register_frame :
    ∀ (β : Type) (st st1 : RegistryState β) (n1 n2 : String) (ov : Bool)
      (b : β), n1 ≠ n2 →
      (Register st n1 ov = .ok st1 → Get st1 n2 = Get st n2)
      ∧ Get (setBody st n1 b) n2 = Get st n2 := by
  intro β st st1 n1 n2 ov b h
  refine ⟨fun hreg => ?_, getEntry_setBody_other st n1 n2 b h⟩
  rcases hg : getEntry st n1 with _ | bo
  · simp [Register, hg] at hreg
    subst hreg
    show getEntry ((n1, none) :: st) n2 = getEntry st n2
    rw [getEntry_cons, if_neg h]
  · rcases ov with _ | _
    · simp [Register, hg] at hreg
    · simp [Register, hg] at hreg
      subst hreg
      rfl

/-- Witness for C8: registering "g" over a one-entry table leaves the
lookup of "f" unchanged, as does installing a body for "g". -/
theorem register_frame_witness :
    (Register [("f", (some 1 : Option Nat))] "g" false
        = .ok [("g", none), ("f", some 1)] →
      Get [("g", none), ("f", (some 1 : Option Nat))] "f"
        = Get [("f", (some 1 : Option Nat))] "f")
    ∧ Get (setBody [("f", (some 1 : Option Nat))] "g" 9) "f"
        = Get [("f", (some 1 : Option Nat))] "f" :=
  register_frame Nat [("f", some 1)] [("g", none), ("f", some 1)] "g" "f"
    false 9 (by decide)

end TVM
